import Mathlib

/-!
Verification of the state-commitment and policy-violation engine of
`.github/scripts/detect_drift.py`.

The Python functions `compute_merkle_root`, `hash_file_content`,
`scan_workflows`, `detect_policy_violations`, `detect_missing_policies` and
`generate_drift_report` are embedded shallowly:

* `hashlib.sha256(...).hexdigest()` is modelled by an executable SHA-256 over
  byte lists (`sha256hex`), with `str.encode()` modelled by UTF-8 encoding
  (`utf8Bytes`).
* Machine words are `Nat` reduced mod 2^32 (`w32`).
* Python exceptions (`IndexError` from list indexing, `OSError` and friends
  from file reads) become an `Except PyErr` result.  The `while` loop of
  `compute_merkle_root` becomes fuel-indexed structural recursion
  (`whileLevels`); the fuel passed by `compute_merkle_root` exceeds the
  number of loop iterations ever possible (each iteration at least halves the
  level, so `length + 1` iterations never occur), hence `outOfFuel` is
  unreachable from `compute_merkle_root` and the loop's observable behaviour
  is exactly the Python loop's: normal exit, or an uncaught `IndexError`.
* `compute_merkle_root` mutates its argument list in place when the leaf
  count is odd (`leaves.append(leaves[-1])`); the embedding returns the final
  state of that list as the second component of its result.
* The file system is the caller's concern: a scan takes the enumerated
  workflow files as a list of `WFile` (name plus the outcome of
  `Path.read_text`, so an unreadable file is a `WFile` whose `text` is an
  `error`).  `Path.read_bytes` for hashing is modelled as the UTF-8 bytes of
  the same text (the files are text files; a file unreadable as bytes is
  unreadable as text).  `sorted(...glob...)` in `scan_workflows` is an
  insertion sort by name; the unsorted `glob` order of
  `detect_policy_violations` is the order in which the `WFile` list is
  supplied.  Report fields derived from the environment (repository name,
  timestamps) are omitted from the embedding.
* Python `str.lstrip()` strips Unicode whitespace; the embedding strips the
  ASCII whitespace characters, which is exhaustive for the inputs at issue.
* The quote characters inside the two f-string messages are omitted from the
  modelled message strings.
-/

/-! SHA-256, executable over `List Nat` byte lists (values < 256). -/

def w32 (n : Nat) : Nat := n % 4294967296

def rotr (n x : Nat) : Nat := w32 ((x >>> n) ||| (x <<< (32 - n)))

def sha256K : List Nat :=
  [1116352408, 1899447441, 3049323471, 3921009573, 961987163, 1508970993,
   2453635748, 2870763221, 3624381080, 310598401, 607225278, 1426881987,
   1925078388, 2162078206, 2614888103, 3248222580, 3835390401, 4022224774,
   264347078, 604807628, 770255983, 1249150122, 1555081692, 1996064986,
   2554220882, 2821834349, 2952996808, 3210313671, 3336571891, 3584528711,
   113926993, 338241895, 666307205, 773529912, 1294757372, 1396182291,
   1695183700, 1986661051, 2177026350, 2456956037, 2730485921, 2820302411,
   3259730800, 3345764771, 3516065817, 3600352804, 4094571909, 275423344,
   430227734, 506948616, 659060556, 883997877, 958139571, 1322822218,
   1537002063, 1747873779, 1955562222, 2024104815, 2227730452, 2361852424,
   2428436474, 2756734187, 3204031479, 3329325298]

def sha256H0 : List Nat :=
  [1779033703, 3144134277, 1013904242, 2773480762, 1359893119, 2600822924,
   528734635, 1541459225]

def toBytesBE : Nat → Nat → List Nat
  | 0, _ => []
  | k + 1, n => toBytesBE k (n / 256) ++ [n % 256]

def sha256Pad (msg : List Nat) : List Nat :=
  msg ++ [0x80] ++ List.replicate ((119 - msg.length % 64) % 64) 0 ++ toBytesBE 8 (8 * msg.length)

def bytesToWords : List Nat → List Nat
  | b0 :: b1 :: b2 :: b3 :: rest => (((b0 * 256 + b1) * 256 + b2) * 256 + b3) :: bytesToWords rest
  | _ => []

def smallSigma0 (x : Nat) : Nat := (rotr 7 x) ^^^ (rotr 18 x) ^^^ (x >>> 3)

def smallSigma1 (x : Nat) : Nat := (rotr 17 x) ^^^ (rotr 19 x) ^^^ (x >>> 10)

def bigSigma0 (x : Nat) : Nat := (rotr 2 x) ^^^ (rotr 13 x) ^^^ (rotr 22 x)

def bigSigma1 (x : Nat) : Nat := (rotr 6 x) ^^^ (rotr 11 x) ^^^ (rotr 25 x)

def chFn (e f g : Nat) : Nat := (e &&& f) ^^^ ((4294967295 ^^^ e) &&& g)

def majFn (a b c : Nat) : Nat := (a &&& b) ^^^ (a &&& c) ^^^ (b &&& c)

def extendSchedule (ws : List Nat) : Nat → List Nat
  | 0 => ws
  | fuel + 1 =>
    let n := ws.length
    let x := w32 (ws.getD (n - 16) 0 + smallSigma0 (ws.getD (n - 15) 0) +
                  ws.getD (n - 7) 0 + smallSigma1 (ws.getD (n - 2) 0))
    extendSchedule (ws ++ [x]) fuel

def compressRounds : List Nat → List Nat → List Nat → List Nat
  | k :: ks, w :: ws, [a, b, c, d, e, f, g, h] =>
    let t1 := w32 (h + bigSigma1 e + chFn e f g + k + w)
    let t2 := w32 (bigSigma0 a + majFn a b c)
    compressRounds ks ws [w32 (t1 + t2), a, b, c, w32 (d + t1), e, f, g]
  | _, _, st => st

def processBlock (st : List Nat) (block : List Nat) : List Nat :=
  let ws := extendSchedule (bytesToWords block) 48
  List.zipWith (fun x y => w32 (x + y)) st (compressRounds sha256K ws st)

def chunks64Fuel : Nat → List Nat → List (List Nat)
  | 0, _ => []
  | _, [] => []
  | fuel + 1, l => l.take 64 :: chunks64Fuel fuel (l.drop 64)

def chunks64 (l : List Nat) : List (List Nat) := chunks64Fuel l.length l

def sha256Words (msg : List Nat) : List Nat :=
  (chunks64 (sha256Pad msg)).foldl processBlock sha256H0

def hexDigit (n : Nat) : Char := if n < 10 then Char.ofNat (48 + n) else Char.ofNat (87 + n)

def wordToHex (w : Nat) : List Char :=
  [hexDigit (w / 268435456 % 16), hexDigit (w / 16777216 % 16), hexDigit (w / 1048576 % 16),
   hexDigit (w / 65536 % 16), hexDigit (w / 4096 % 16), hexDigit (w / 256 % 16),
   hexDigit (w / 16 % 16), hexDigit (w % 16)]

/-- Model of `hashlib.sha256(bytes).hexdigest()`. -/
def sha256hex (msg : List Nat) : String :=
  String.mk (((sha256Words msg).map wordToHex).flatten)

def utf8Char (c : Char) : List Nat :=
  let n := c.toNat
  if n < 128 then [n]
  else if n < 2048 then [192 ||| (n >>> 6), 128 ||| (n &&& 63)]
  else if n < 65536 then [224 ||| (n >>> 12), 128 ||| ((n >>> 6) &&& 63), 128 ||| (n &&& 63)]
  else [240 ||| (n >>> 18), 128 ||| ((n >>> 12) &&& 63), 128 ||| ((n >>> 6) &&& 63), 128 ||| (n &&& 63)]

/-- Model of Python `str.encode()` (UTF-8). -/
def utf8Bytes (s : String) : List Nat := (s.data.map utf8Char).flatten

/-- Model of `hashlib.sha256(s.encode()).hexdigest()`. -/
def sha256HexOfString (s : String) : String := sha256hex (utf8Bytes s)

/-- Bool test for lowercase hex digits, the alphabet of `hexdigest()`. -/
def isHexChar (c : Char) : Bool :=
  (48 ≤ c.toNat && c.toNat ≤ 57) || (97 ≤ c.toNat && c.toNat ≤ 102)

def isHexString (s : String) : Bool := s.data.all isHexChar

/-! Embedding of `compute_merkle_root` (detect_drift.py lines 24-62). -/

/-- Python exceptions that the embedded code can raise.  `indexError` is the
`IndexError` of `current_level[i + 1]` / `current_level[0]`; `readError`
stands for whatever `Path.read_text` raises on an unreadable file;
`outOfFuel` marks exhaustion of the fuel of the loop embedding and is proved
unreachable from `compute_merkle_root`. -/
inductive PyErr where
  | indexError
  | readError
  | outOfFuel
deriving DecidableEq

/-- One iteration body of the `while` loop (lines 49-58): left-to-right pairs
`current_level[i]`, `current_level[i + 1]` combined by string concatenation
and hashed.  On a level of odd length the final `current_level[i + 1]` is an
out-of-range index: `IndexError`. -/
def pairUp (hashF : String → String) : List String → Except PyErr (List String)
  | [] => .ok []
  | [_] => .error .indexError
  | x :: y :: rest =>
    match pairUp hashF rest with
    | .error e => .error e
    | .ok tail => .ok (hashF (x ++ y) :: tail)

/-- The `while len(current_level) > 1` loop (lines 48-62) plus the final
`return current_level[0]`, as fuel-indexed recursion. -/
def whileLevels (hashF : String → String) : Nat → List String → Except PyErr String
  | 0, _ => .error .outOfFuel
  | fuel + 1, level =>
    if level.length > 1 then
      (pairUp hashF level).bind (whileLevels hashF fuel)
    else
      level.head?.elim (Except.error PyErr.indexError) Except.ok

/-- Lines 42-43: `if len(leaves) % 2 == 1: leaves.append(leaves[-1])` — the
state of the caller's list after the (possible) in-place append. -/
def evenLeaves (leaves : List String) : List String :=
  if leaves.length % 2 == 1 then leaves ++ [leaves.getLast!] else leaves

/-- `compute_merkle_root(leaves)`: first component is the returned root (or
the uncaught exception), second component is the final state of the caller's
`leaves` list (the function appends to it in place when the count is odd). -/
def compute_merkle_root (hashF : String → String) (leaves : List String) :
    Except PyErr String × List String :=
  if leaves = [] then (.ok (hashF ""), leaves)
  else (whileLevels hashF ((evenLeaves leaves).length + 1) (evenLeaves leaves), evenLeaves leaves)

/-! Model of the commitment construction as the spec words it (spec.md §4.1
steps 2-5): the odd-count duplication rule applied at every level of the
tree, not only at the leaves.  This is the refinement target that claim C1
compares `compute_merkle_root` against. -/

/-- Modelled from the spec: step 3, "if the count is odd, the last hash is
duplicated (appended again)", applied to one level. -/
def specPadLevel (level : List String) : List String :=
  if level.length % 2 == 1 then level ++ [level.getLast!] else level

/-- Modelled from the spec: step 4, pairwise left-to-right combination of an
(even) level by hashing the concatenation. -/
def specPairUp (hashF : String → String) : List String → List String
  | x :: y :: rest => hashF (x ++ y) :: specPairUp hashF rest
  | _ => []

/-- Modelled from the spec: step 5, repeat pad-then-combine until one hash
remains.  The construction is total; `bound` only drives the structural
recursion and any value at least the level length exceeds the possible
number of halving iterations, so the `bound = 0` branch is never the value
actually produced under the bounds used below. -/
def specLoopB (hashF : String → String) : Nat → List String → String
  | 0, level => level.headD (hashF "")
  | bound + 1, level =>
    if level.length > 1 then specLoopB hashF bound (specPairUp hashF (specPadLevel level))
    else level.headD (hashF "")

/-- Modelled from the spec (§4.1): the root of the construction that pads
every odd level, with the empty-input sentinel of step 2. -/
def specPaddedMerkleRoot (hashF : String → String) (leaves : List String) : String :=
  if leaves = [] then hashF ""
  else specLoopB hashF (leaves.length + 1) (specPadLevel leaves)

/-- The leaf counts on which no level of the tree built by
`compute_merkle_root` is ever odd: powers of two. -/
def IsPow2 (n : Nat) : Prop := ∃ k, n = 2 ^ k

/-! Embedding of the violation scanner and report assembly
(detect_drift.py lines 65-223). -/

instance {ε α : Type} [DecidableEq ε] [DecidableEq α] : DecidableEq (Except ε α) := fun x y =>
  match x, y with
  | .ok a, .ok b =>
    if h : a = b then .isTrue (by rw [h]) else .isFalse (by intro hc; cases hc; exact h rfl)
  | .error a, .error b =>
    if h : a = b then .isTrue (by rw [h]) else .isFalse (by intro hc; cases hc; exact h rfl)
  | .ok _, .error _ => .isFalse (by intro hc; cases hc)
  | .error _, .ok _ => .isFalse (by intro hc; cases hc)

/-- One workflow file as enumerated by `workflows_dir.glob("*.y*ml")`:
its file name and the outcome of `Path.read_text` on it (an unreadable file
carries the exception it raises). -/
structure WFile where
  name : String
  text : Except PyErr String
deriving DecidableEq

/-- One violation dict.  Run-command violations carry `lines := some ...`;
missing-file violations have no `lines` key (`none`). -/
structure Violation where
  file : String
  path : String
  violation_type : String
  lines : Option (List Nat)
  message : String
deriving DecidableEq

/-- Python `content.split("\n")` on the character list. -/
def pySplitNl : List Char → List (List Char)
  | [] => [[]]
  | c :: rest =>
    if c = '\n' then [] :: pySplitNl rest
    else
      match pySplitNl rest with
      | l :: ls => (c :: l) :: ls
      | [] => [[c]]

/-- Python `str.lstrip()` (ASCII whitespace). -/
def pyLstrip : List Char → List Char
  | [] => []
  | c :: rest =>
    if c = ' ' ∨ c = '\t' ∨ c = '\n' ∨ c = '\r' ∨ c = '\x0b' ∨ c = '\x0c' then pyLstrip rest
    else c :: rest

/-- Lines 146-154: the per-line classification.  A line is flagged when its
left-stripped text is not a full-line comment and begins with `run:` or with
the list-item form `- run:`. -/
def lineViolates (line : List Char) : Bool :=
  let stripped := pyLstrip line
  if "#".data.isPrefixOf stripped then false
  else "run:".data.isPrefixOf stripped || "- run:".data.isPrefixOf stripped

/-- Lines 143-154: 1-based numbers of the flagged lines of one file. -/
def violationLines (content : String) : List Nat :=
  ((pySplitNl content.data).enumFrom 1).filterMap
    (fun p => if lineViolates p.2 then some p.1 else none)

/-- Lines 157-163: the violation dict appended for a file with a nonempty
flagged-line list.  (The quotes around run: in the f-string are omitted.) -/
def runCommandViolation (name : String) (vl : List Nat) : Violation :=
  { file := name
    path := ".github/workflows/" ++ name
    violation_type := "bespoke_run_command"
    lines := some vl
    message := "Contains " ++ toString vl.length ++ " bespoke run: command(s)" }

/-- `detect_policy_violations` (lines 118-165) over the enumerated file list
(the order of the list is the `glob` enumeration order).  `read_text` on an
unreadable file raises, and nothing catches it, so the whole call errors. -/
def detect_policy_violations (files : List WFile) (allowlist : List String) :
    Except PyErr (List Violation) :=
  match files with
  | [] => .ok []
  | f :: rest =>
    if allowlist.contains f.name then detect_policy_violations rest allowlist
    else
      match f.text with
      | .error e => .error e
      | .ok content =>
        let vl := violationLines content
        match detect_policy_violations rest allowlist with
        | .error e => .error e
        | .ok tail => .ok (if vl.isEmpty then tail else runCommandViolation f.name vl :: tail)

/-- `detect_missing_policies` (lines 168-193): one violation per required
name whose file does not exist in the scanned set, in required-list order.
(The quotes around the file name in the f-string are omitted.) -/
def detect_missing_policies (files : List WFile) (required_files : List String) :
    List Violation :=
  required_files.filterMap (fun req =>
    if (files.map WFile.name).contains req then none
    else some
      { file := req
        path := ".github/workflows/" ++ req
        violation_type := "missing_required_file"
        lines := none
        message := "Required governance file " ++ req ++ " is missing" })

/-- `hash_file_content` (lines 65-76) applied to the outcome of
`Path.read_bytes`: the hash of the content, or — via the `except` branch —
the hash of the empty byte string when the read raised. -/
def hash_file_content (readResult : Except PyErr (List Nat)) : String :=
  match readResult with
  | .ok content => sha256hex content
  | .error _ => sha256hex []

def insertByName (f : WFile) : List WFile → List WFile
  | [] => [f]
  | g :: rest => if f.name ≤ g.name then f :: g :: rest else g :: insertByName f rest

/-- The `sorted(workflows_dir.glob(...))` of line 99: sort by file name. -/
def sortByName : List WFile → List WFile
  | [] => []
  | f :: rest => insertByName f (sortByName rest)

/-- The state dict built by `scan_workflows` (lines 79-115), minus the
timestamp.  `workflows` entries are (name, path, hash). -/
structure ScanState where
  workflows : List (String × String × String)
  merkle_root : String
  workflow_count : Nat
deriving DecidableEq

/-- `scan_workflows` (lines 79-115): hash each file (in sorted order) and
commit to the hash list.  `compute_merkle_root` may raise out of it.  The
bytes hashed for a file are the UTF-8 bytes of its text. -/
def scan_workflows (files : List WFile) : Except PyErr ScanState :=
  let entries := (sortByName files).map (fun f =>
    (f.name, ".github/workflows/" ++ f.name, hash_file_content (f.text.map utf8Bytes)))
  let hashes := entries.map (fun w => w.2.2)
  match (compute_merkle_root sha256HexOfString hashes).fst with
  | .error e => .error e
  | .ok root => .ok { workflows := entries, merkle_root := root, workflow_count := entries.length }

/-- The report dict of `generate_drift_report` (lines 196-223), minus the
repository/timestamp environment fields. -/
structure Report where
  state : ScanState
  violations : List Violation
  violation_count : Nat
  drift_detected : Bool
  status : String
deriving DecidableEq

/-- `generate_drift_report` (lines 196-223): state scan, then the two
violation passes, concatenated as `violations + missing`. -/
def generate_drift_report (files : List WFile) (allowlist required_files : List String) :
    Except PyErr Report :=
  match scan_workflows files with
  | .error e => .error e
  | .ok state =>
    match detect_policy_violations files allowlist with
    | .error e => .error e
    | .ok violations =>
      let missing := detect_missing_policies files required_files
      let all_violations := violations ++ missing
      .ok { state := state
            violations := all_violations
            violation_count := all_violations.length
            drift_detected := all_violations.length > 0
            status := if all_violations.isEmpty then "COMPLIANT" else "DRIFT_DETECTED" }

/-! Helper lemmas: the pairing step. -/

theorem specPairUp_length (f : String → String) (l : List String) :
    (specPairUp f l).length = l.length / 2 := by
  induction l using specPairUp.induct f with
  | case1 x y rest ih => simp [specPairUp, ih]; omega
  | case2 l h =>
    match l with
    | [] => simp [specPairUp]
    | [x] => simp [specPairUp]
    | x :: y :: r => exact absurd rfl (h x y r)

theorem specPairUp_mem (f : String → String) (l : List String) (s : String)
    (hs : s ∈ specPairUp f l) : ∃ t, s = f t := by
  induction l using specPairUp.induct f with
  | case1 x y rest ih =>
    rw [specPairUp] at hs
    rcases List.mem_cons.mp hs with h | h
    · exact ⟨x ++ y, h⟩
    · exact ih h
  | case2 l h =>
    match l with
    | [] => simp [specPairUp] at hs
    | [x] => simp [specPairUp] at hs
    | x :: y :: r => exact absurd rfl (h x y r)

theorem pairUp_even (f : String → String) (l : List String) (h : l.length % 2 = 0) :
    pairUp f l = .ok (specPairUp f l) := by
  induction l using specPairUp.induct f with
  | case1 x y rest ih =>
    have hr : rest.length % 2 = 0 := by simp at h; omega
    simp [pairUp, specPairUp, ih hr]
  | case2 l hl =>
    match l with
    | [] => simp [pairUp, specPairUp]
    | [x] => simp at h
    | x :: y :: r => exact absurd rfl (hl x y r)

theorem pairUp_odd (f : String → String) (l : List String) (h : l.length % 2 = 1) :
    pairUp f l = .error .indexError := by
  induction l using specPairUp.induct f with
  | case1 x y rest ih =>
    have hr : rest.length % 2 = 1 := by simp at h; omega
    simp [pairUp, ih hr]
  | case2 l hl =>
    match l with
    | [] => simp at h
    | [x] => simp [pairUp]
    | x :: y :: r => exact absurd rfl (hl x y r)

theorem pairUp_ok_eq (f : String → String) (l next : List String)
    (h : pairUp f l = .ok next) : next = specPairUp f l := by
  rcases Nat.mod_two_eq_zero_or_one l.length with he | ho
  · rw [pairUp_even f l he] at h
    exact (Except.ok.inj h).symm
  · rw [pairUp_odd f l ho] at h
    simp at h

theorem specPadLevel_even (l : List String) (h : l.length % 2 = 0) : specPadLevel l = l := by
  simp [specPadLevel, h]

/-! Helper lemmas: the level loop against the spec construction. -/

theorem whileLevels_pow2 (f : String → String) :
    ∀ (k b1 b2 : Nat) (level : List String), level.length = 2 ^ k →
      k < b1 → k < b2 → whileLevels f b1 level = .ok (specLoopB f b2 level) := by
  intro k
  induction k with
  | zero =>
    intro b1 b2 level hlen h1 h2
    match b1, b2 with
    | m1 + 1, m2 + 1 =>
      obtain ⟨x, rfl⟩ := List.length_eq_one.mp (by simpa using hlen)
      simp [whileLevels, specLoopB]
  | succ k ih =>
    intro b1 b2 level hlen h1 h2
    match b1, b2 with
    | m1 + 1, m2 + 1 =>
      have hgt : level.length > 1 := by
        rw [hlen]
        calc 1 < 2 ^ 1 := by norm_num
        _ ≤ 2 ^ (k + 1) := Nat.pow_le_pow_right (by norm_num) (by omega)
      have heven : level.length % 2 = 0 := by
        rw [hlen, pow_succ]
        omega
      have hnext : (specPairUp f level).length = 2 ^ k := by
        rw [specPairUp_length, hlen, pow_succ]
        omega
      rw [whileLevels, specLoopB, if_pos hgt, if_pos hgt, pairUp_even f level heven,
        specPadLevel_even level heven]
      exact ih m1 m2 (specPairUp f level) hnext (by omega) (by omega)

theorem whileLevels_not_pow2 (f : String → String) :
    ∀ (b : Nat) (level : List String), level.length % 2 = 0 → 2 ≤ level.length →
      ¬IsPow2 level.length → level.length < b →
      whileLevels f b level = .error .indexError := by
  intro b
  induction b with
  | zero => intro level _ h2 _ hb; omega
  | succ b ih =>
    intro level heven h2 hnp hb
    have hgt : level.length > 1 := by omega
    have hpair := pairUp_even f level heven
    have hlen2 : (specPairUp f level).length = level.length / 2 := specPairUp_length f level
    rw [whileLevels, if_pos hgt, hpair]
    show whileLevels f b (specPairUp f level) = Except.error PyErr.indexError
    by_cases hone : (specPairUp f level).length = 1
    · exfalso
      apply hnp
      rw [hlen2] at hone
      have : level.length = 2 := by omega
      exact ⟨1, by rw [this]; norm_num⟩
    · rcases Nat.mod_two_eq_zero_or_one (specPairUp f level).length with heven2 | hodd
      · have hge1 : 1 ≤ (specPairUp f level).length := by rw [hlen2]; omega
        have h22 : 2 ≤ (specPairUp f level).length := by omega
        have hnp2 : ¬IsPow2 (specPairUp f level).length := by
          rintro ⟨j, hj⟩
          apply hnp
          rw [hlen2] at hj
          refine ⟨j + 1, ?_⟩
          rw [pow_succ]
          omega
        have hb2 : (specPairUp f level).length < b := by rw [hlen2]; omega
        exact ih (specPairUp f level) heven2 h22 hnp2 hb2
      · have hgt2 : (specPairUp f level).length > 1 := by
          have : 1 ≤ (specPairUp f level).length := by rw [hlen2]; omega
          omega
        obtain ⟨b', rfl⟩ : ∃ b', b = b' + 1 := ⟨b - 1, by omega⟩
        rw [whileLevels, if_pos hgt2, pairUp_odd f _ hodd]
        rfl

theorem whileLevels_ok_shape (f : String → String) :
    ∀ (b : Nat) (level : List String) (s : String),
      whileLevels f b level = .ok s → s ∈ level ∨ ∃ t, s = f t := by
  intro b
  induction b with
  | zero => intro level s h; simp [whileLevels] at h
  | succ b ih =>
    intro level s h
    rw [whileLevels] at h
    split at h
    · cases hp : pairUp f level with
      | error e => rw [hp] at h; simp [Except.bind] at h
      | ok next =>
        rw [hp] at h
        replace h : whileLevels f b next = Except.ok s := h
        rcases ih next s h with hin | hout
        · right
          exact specPairUp_mem f level s (pairUp_ok_eq f level next hp ▸ hin)
        · exact Or.inr hout
    · match level, h with
      | x :: _, h =>
        left
        rw [Except.ok.inj h]
        exact List.mem_cons_self s _

theorem whileLevels_root_shape (f : String → String) (b : Nat) (level : List String) (s : String)
    (h2 : 2 ≤ level.length) (h : whileLevels f b level = .ok s) : ∃ t, s = f t := by
  match b with
  | 0 => simp [whileLevels] at h
  | b + 1 =>
    rw [whileLevels, if_pos (by omega : level.length > 1)] at h
    cases hp : pairUp f level with
    | error e => rw [hp] at h; simp [Except.bind] at h
    | ok next =>
      rw [hp] at h
      replace h : whileLevels f b next = Except.ok s := h
      rcases whileLevels_ok_shape f b next s h with hin | hout
      · exact specPairUp_mem f level s (pairUp_ok_eq f level next hp ▸ hin)
      · exact hout

/-! Helper lemmas: every digest is 64 lowercase hex characters. -/

theorem compressRounds_length (ks : List Nat) :
    ∀ (ws st : List Nat), (compressRounds ks ws st).length = st.length := by
  induction ks with
  | nil => intro ws st; rw [compressRounds] <;> (intros; simp_all)
  | cons k ks ih =>
    intro ws st
    match ws with
    | [] => rw [compressRounds] <;> (intros; simp_all)
    | w :: ws =>
      match st with
      | [] => rw [compressRounds] <;> (intros; simp_all)
      | [a] => rw [compressRounds] <;> (intros; simp_all)
      | [a, b] => rw [compressRounds] <;> (intros; simp_all)
      | [a, b, c] => rw [compressRounds] <;> (intros; simp_all)
      | [a, b, c, d] => rw [compressRounds] <;> (intros; simp_all)
      | [a, b, c, d, e] => rw [compressRounds] <;> (intros; simp_all)
      | [a, b, c, d, e, f] => rw [compressRounds] <;> (intros; simp_all)
      | [a, b, c, d, e, f, g] => rw [compressRounds] <;> (intros; simp_all)
      | [a, b, c, d, e, f, g, h] => rw [compressRounds]; rw [ih]; rfl
      | a :: b :: c :: d :: e :: f :: g :: h :: i :: rest =>
        rw [compressRounds] <;> (intros; simp_all)

theorem processBlock_length (st block : List Nat) (h : st.length = 8) :
    (processBlock st block).length = 8 := by
  simp [processBlock, compressRounds_length, h]

theorem foldl_processBlock_length (bs : List (List Nat)) :
    ∀ (st : List Nat), st.length = 8 → (bs.foldl processBlock st).length = 8 := by
  induction bs with
  | nil => intro st h; simpa
  | cons b bs ih =>
    intro st h
    exact ih (processBlock st b) (processBlock_length st b h)

theorem sha256Words_length (msg : List Nat) : (sha256Words msg).length = 8 :=
  foldl_processBlock_length _ sha256H0 rfl

theorem wordToHex_length (w : Nat) : (wordToHex w).length = 8 := by
  simp [wordToHex]

theorem flatten_wordToHex_length (ws : List Nat) :
    ((ws.map wordToHex).flatten).length = 8 * ws.length := by
  induction ws with
  | nil => simp
  | cons w ws ih => simp [wordToHex_length, ih]; omega

theorem sha256hex_length (msg : List Nat) : (sha256hex msg).length = 64 := by
  show (((sha256Words msg).map wordToHex).flatten).length = 64
  rw [flatten_wordToHex_length, sha256Words_length]

theorem hexDigit_isHex (n : Nat) : isHexChar (hexDigit (n % 16)) = true := by
  have h : n % 16 < 16 := Nat.mod_lt _ (by norm_num)
  revert h
  generalize n % 16 = m
  intro h
  interval_cases m <;> decide

theorem wordToHex_isHex (w : Nat) : ∀ c ∈ wordToHex w, isHexChar c = true := by
  intro c hc
  simp only [wordToHex, List.mem_cons, List.not_mem_nil, or_false] at hc
  rcases hc with h | h | h | h | h | h | h | h <;> subst h <;> exact hexDigit_isHex _

theorem sha256hex_isHex (msg : List Nat) : isHexString (sha256hex msg) = true := by
  show (((sha256Words msg).map wordToHex).flatten).all isHexChar = true
  rw [List.all_eq_true]
  intro c hc
  rw [List.mem_flatten] at hc
  obtain ⟨l, hl, hcl⟩ := hc
  rw [List.mem_map] at hl
  obtain ⟨w, _, rfl⟩ := hl
  exact wordToHex_isHex w c hcl

/-! Helper lemmas: the leaf-evening step (lines 42-43). -/

theorem evenLeaves_even (l : List String) : (evenLeaves l).length % 2 = 0 := by
  rcases Nat.mod_two_eq_zero_or_one l.length with h | h
  · simp [evenLeaves, h]
  · simp [evenLeaves, h]
    omega

theorem evenLeaves_two_le (l : List String) (hne : l ≠ []) : 2 ≤ (evenLeaves l).length := by
  have h1 : 0 < l.length := List.length_pos.mpr hne
  rcases Nat.mod_two_eq_zero_or_one l.length with h | h
  · simp [evenLeaves, h]
    omega
  · simp [evenLeaves, h]
    omega

theorem evenLeaves_length_le (l : List String) : (evenLeaves l).length ≤ l.length + 1 := by
  rcases Nat.mod_two_eq_zero_or_one l.length with h | h
  · simp [evenLeaves, h]
  · simp [evenLeaves, h]

theorem evenLeaves_eq_specPadLevel (l : List String) : evenLeaves l = specPadLevel l := rfl

/-- C1 counterexample: on the six leaves a..f the code path and the
construction that pads every odd level disagree — the code raises an
`IndexError` at the odd-sized inner level instead of producing the padded
construction's root. -/
theorem merkle_padding_cex_six_leaves :
    (compute_merkle_root sha256HexOfString ["a", "b", "c", "d", "e", "f"]).fst ≠
      Except.ok (specPaddedMerkleRoot sha256HexOfString ["a", "b", "c", "d", "e", "f"]) := by
  have h : (compute_merkle_root sha256HexOfString ["a", "b", "c", "d", "e", "f"]).fst
      = Except.error PyErr.indexError := by rfl
  rw [h]
  intro hc
  exact Except.noConfusion hc

/-- C1 (amended): the odd-count duplication happens only at the leaf level
(lines 42-43), never inside the loop.  The root therefore equals the root of
the every-level-padding construction exactly when no inner level is ever odd,
i.e. when the evened leaf count is a power of two (or the input is empty);
for every other input the computation raises `IndexError` at the first odd
inner level instead of duplicating. -/
theorem merkle_padding_leaf_level_only (f : String → String) (leaves : List String) :
    ((leaves = [] ∨ IsPow2 (evenLeaves leaves).length) →
      (compute_merkle_root f leaves).fst = .ok (specPaddedMerkleRoot f leaves)) ∧
    (leaves ≠ [] → ¬IsPow2 (evenLeaves leaves).length →
      (compute_merkle_root f leaves).fst = .error .indexError) := by
  constructor
  · intro hp
    by_cases hne : leaves = []
    · subst hne
      simp [compute_merkle_root, specPaddedMerkleRoot]
    · rcases hp with h | ⟨k, hk⟩
      · exact absurd h hne
      · have hle : (evenLeaves leaves).length ≤ leaves.length + 1 := evenLeaves_length_le leaves
        have hkk : k < 2 ^ k := Nat.lt_two_pow k
        simp only [compute_merkle_root, if_neg hne, specPaddedMerkleRoot,
          ← evenLeaves_eq_specPadLevel]
        exact whileLevels_pow2 f k ((evenLeaves leaves).length + 1) (leaves.length + 1)
          (evenLeaves leaves) hk (by omega) (by omega)
  · intro hne hnp
    simp only [compute_merkle_root, if_neg hne]
    exact whileLevels_not_pow2 f ((evenLeaves leaves).length + 1) (evenLeaves leaves)
      (evenLeaves_even leaves) (evenLeaves_two_le leaves hne) hnp (by omega)

/-- C1 witness: three leaves even to four (a power of two), and there the
code root does equal the padded construction's root. -/
theorem merkle_padding_leaf_level_only_witness :
    (compute_merkle_root sha256HexOfString ["a", "b", "c"]).fst =
      .ok (specPaddedMerkleRoot sha256HexOfString ["a", "b", "c"]) :=
  (merkle_padding_leaf_level_only sha256HexOfString ["a", "b", "c"]).1
    (Or.inr ⟨2, by decide⟩)

/-- C2 counterexample: six leaves (an even count whose inner level has three
hashes) make `compute_merkle_root` raise `IndexError`; the computation is not
total. -/
theorem merkle_six_leaves_index_error :
    (compute_merkle_root sha256HexOfString ["u", "v", "w", "x", "y", "z"]).fst =
      Except.error PyErr.indexError := by rfl

/-- C2 (amended): `compute_merkle_root` terminates with a 64-character
lowercase-hex digest for the empty list and for every leaf list whose evened
count is a power of two; for every other leaf count (six among them) it
raises `IndexError` at the first odd inner level. -/
theorem merkle_total_on_pow2_counts (leaves : List String) :
    ((leaves = [] ∨ IsPow2 (evenLeaves leaves).length) →
      ∃ s, (compute_merkle_root sha256HexOfString leaves).fst = .ok s ∧
        s.length = 64 ∧ isHexString s = true) ∧
    (leaves ≠ [] → ¬IsPow2 (evenLeaves leaves).length →
      (compute_merkle_root sha256HexOfString leaves).fst = .error .indexError) := by
  constructor
  · intro hp
    by_cases hne : leaves = []
    · subst hne
      exact ⟨sha256HexOfString "", by simp [compute_merkle_root],
        sha256hex_length _, sha256hex_isHex _⟩
    · rcases hp with h | ⟨k, hk⟩
      · exact absurd h hne
      · have hok : (compute_merkle_root sha256HexOfString leaves).fst =
            .ok (specLoopB sha256HexOfString ((evenLeaves leaves).length + 1)
              (evenLeaves leaves)) := by
          have hkk : k < 2 ^ k := Nat.lt_two_pow k
          simp only [compute_merkle_root, if_neg hne]
          exact whileLevels_pow2 sha256HexOfString k ((evenLeaves leaves).length + 1)
            ((evenLeaves leaves).length + 1) (evenLeaves leaves) hk (by omega) (by omega)
        have hshape : ∃ t, specLoopB sha256HexOfString ((evenLeaves leaves).length + 1)
            (evenLeaves leaves) = sha256HexOfString t := by
          have h2 := evenLeaves_two_le leaves hne
          have := whileLevels_root_shape sha256HexOfString ((evenLeaves leaves).length + 1)
            (evenLeaves leaves) _ h2 (by simpa [compute_merkle_root, if_neg hne] using hok)
          exact this
        obtain ⟨t, ht⟩ := hshape
        refine ⟨_, hok, ?_, ?_⟩
        · rw [ht]; exact sha256hex_length _
        · rw [ht]; exact sha256hex_isHex _
  · intro hne hnp
    simp only [compute_merkle_root, if_neg hne]
    exact whileLevels_not_pow2 sha256HexOfString ((evenLeaves leaves).length + 1)
      (evenLeaves leaves) (evenLeaves_even leaves) (evenLeaves_two_le leaves hne) hnp (by omega)

/-- C2 witness: the single leaf a evens to a two-leaf level and the call
returns a 64-character hex digest. -/
theorem merkle_total_on_pow2_counts_witness :
    ∃ s, (compute_merkle_root sha256HexOfString ["a"]).fst = .ok s ∧
      s.length = 64 ∧ isHexString s = true :=
  (merkle_total_on_pow2_counts ["a"]).1 (Or.inr ⟨1, by decide⟩)

/-- C3 counterexample: the literal the spec quotes for the empty-input root
has only 63 hex characters, and the empty-input commitment does not equal
it (the true digest carries one more trailing character). -/
theorem empty_root_spec_literal_cex :
    ("e3b0c44298fc1c149afbf4c8996fb92427ae41e4649b934ca495991b7852b85" : String).length = 63 ∧
    (compute_merkle_root sha256HexOfString []).fst ≠
      Except.ok "e3b0c44298fc1c149afbf4c8996fb92427ae41e4649b934ca495991b7852b85" := by
  constructor
  · decide
  · intro h
    have hv : (compute_merkle_root sha256HexOfString []).fst =
        Except.ok "e3b0c44298fc1c149afbf4c8996fb92427ae41e4649b934ca495991b7852b855" := by rfl
    rw [hv] at h
    have := Except.ok.inj h
    exact absurd this (by decide)

/-- C3 (amended): the commitment of the empty leaf sequence is the SHA-256
digest of the empty byte string, whose hex value is
e3b0c44298fc1c149afbf4c8996fb92427ae41e4649b934ca495991b7852b855 (64 hex
characters — the spec literal drops the final 5). -/
theorem empty_root_value :
    (compute_merkle_root sha256HexOfString []).fst = Except.ok (sha256hex []) ∧
    sha256hex [] = "e3b0c44298fc1c149afbf4c8996fb92427ae41e4649b934ca495991b7852b855" ∧
    ("e3b0c44298fc1c149afbf4c8996fb92427ae41e4649b934ca495991b7852b855" : String).length = 64 := by
  refine ⟨by rfl, by rfl, by decide⟩

/-- C5: the commitment computation is deterministic — it is a pure function
of the leaf list, so two runs on identical leaves in identical order return
identical results (root and final list state alike). -/
theorem merkle_deterministic (leaves1 leaves2 : List String) (h : leaves1 = leaves2) :
    compute_merkle_root sha256HexOfString leaves1 =
      compute_merkle_root sha256HexOfString leaves2 := by
  rw [h]

/-- C5 witness at a concrete leaf list. -/
theorem merkle_deterministic_witness :
    compute_merkle_root sha256HexOfString ["a", "b"] =
      compute_merkle_root sha256HexOfString ["a", "b"] :=
  merkle_deterministic ["a", "b"] ["a", "b"] rfl

/-- C10: on an odd-length (nonempty) input the call appends a duplicate of
the last element to the caller's list, leaving it one element longer; on an
even-length or empty input the list is unchanged. -/
theorem merkle_mutates_caller_list (f : String → String) (leaves : List String) :
    (leaves ≠ [] → leaves.length % 2 = 1 →
      (compute_merkle_root f leaves).snd = leaves ++ [leaves.getLast!] ∧
      (compute_merkle_root f leaves).snd.length = leaves.length + 1) ∧
    ((leaves = [] ∨ leaves.length % 2 = 0) → (compute_merkle_root f leaves).snd = leaves) := by
  constructor
  · intro hne hodd
    constructor
    · simp [compute_merkle_root, if_neg hne, evenLeaves, hodd]
    · simp [compute_merkle_root, if_neg hne, evenLeaves, hodd]
  · rintro (rfl | heven)
    · simp [compute_merkle_root]
    · by_cases hne : leaves = []
      · simp [hne, compute_merkle_root]
      · simp [compute_merkle_root, if_neg hne, evenLeaves, heven]

/-- C10 witness: a one-element list gains a duplicate; a two-element list is
left alone. -/
theorem merkle_mutates_caller_list_witness :
    (compute_merkle_root sha256HexOfString ["x"]).snd =
      ["x"] ++ [(["x"] : List String).getLast!] ∧
    (compute_merkle_root sha256HexOfString ["x", "y"]).snd = ["x", "y"] :=
  ⟨((merkle_mutates_caller_list sha256HexOfString ["x"]).1 (by decide) (by decide)).1,
   (merkle_mutates_caller_list sha256HexOfString ["x", "y"]).2 (Or.inr (by decide))⟩

/-! Helper lemmas: the line classifier. -/

theorem not_isPrefixOf_of_incomp (p q t : List Char) (hp : p.isPrefixOf t = true)
    (h1 : q.isPrefixOf p = false) (h2 : p.isPrefixOf q = false) :
    q.isPrefixOf t = false := by
  by_contra hq
  rw [Bool.not_eq_false] at hq
  rw [List.isPrefixOf_iff_prefix] at hp hq
  rcases List.prefix_or_prefix_of_prefix hq hp with h | h
  · rw [← List.isPrefixOf_iff_prefix] at h
    rw [h] at h1
    exact Bool.noConfusion h1
  · rw [← List.isPrefixOf_iff_prefix] at h
    rw [h] at h2
    exact Bool.noConfusion h2

/-- C7: the classifier flags exactly the non-comment lines whose
left-stripped text begins with run: or with - run:; a left-stripped line
beginning with runs-on: (bare or list-item form) is never flagged, and a
full-line comment is never flagged. -/
theorem line_classifier_exact (line : List Char) :
    (lineViolates line = true ↔
      ("#".data.isPrefixOf (pyLstrip line) = false ∧
        ("run:".data.isPrefixOf (pyLstrip line) = true ∨
          "- run:".data.isPrefixOf (pyLstrip line) = true))) ∧
    ("runs-on:".data.isPrefixOf (pyLstrip line) = true → lineViolates line = false) ∧
    ("- runs-on:".data.isPrefixOf (pyLstrip line) = true → lineViolates line = false) ∧
    ("#".data.isPrefixOf (pyLstrip line) = true → lineViolates line = false) := by
  refine ⟨?_, ?_, ?_, ?_⟩
  · by_cases hc : "#".data.isPrefixOf (pyLstrip line) = true
    · simp [lineViolates, hc]
    · rw [Bool.not_eq_true] at hc
      simp [lineViolates, hc]
  · intro h
    have h1 := not_isPrefixOf_of_incomp _ "run:".data _ h (by decide) (by decide)
    have h2 := not_isPrefixOf_of_incomp _ "- run:".data _ h (by decide) (by decide)
    simp [lineViolates, h1, h2]
  · intro h
    have h1 := not_isPrefixOf_of_incomp _ "run:".data _ h (by decide) (by decide)
    have h2 := not_isPrefixOf_of_incomp _ "- run:".data _ h (by decide) (by decide)
    simp [lineViolates, h1, h2]
  · intro h
    simp [lineViolates, h]

/-- C7 witness: a runs-on line (in a list item and bare), a comment, and a
real run line, classified concretely. -/
theorem line_classifier_exact_witness :
    lineViolates ("    runs-on: ubuntu-latest".data) = false ∧
    lineViolates ("      - runs-on: x".data) = false ∧
    lineViolates ("  # run: hidden in a comment".data) = false ∧
    lineViolates ("      - run: echo hi".data) = true :=
  ⟨(line_classifier_exact _).2.1 (by decide),
   (line_classifier_exact _).2.2.1 (by decide),
   (line_classifier_exact _).2.2.2 (by decide),
   (line_classifier_exact _).1.mpr (by decide)⟩

/-- C6: on the exact two-line content steps:, - run: echo hi the scanner
reports exactly one violation for the file, listing exactly line 2, when the
file name is not allowlisted; with the name in the allowlist it reports no
violation for the file. -/
theorem two_line_steps_run_detection (name : String) (allow : List String) :
    (allow.contains name = false →
      detect_policy_violations [⟨name, .ok "steps:\n  - run: echo hi\n"⟩] allow =
        .ok [{ file := name
               path := ".github/workflows/" ++ name
               violation_type := "bespoke_run_command"
               lines := some [2]
               message := "Contains 1 bespoke run: command(s)" }]) ∧
    (allow.contains name = true →
      detect_policy_violations [⟨name, .ok "steps:\n  - run: echo hi\n"⟩] allow = .ok []) := by
  have hv : violationLines "steps:\n  - run: echo hi\n" = [2] := by decide
  constructor
  · intro h
    simp only [detect_policy_violations, h, Bool.false_eq_true, if_false, hv]
    rfl
  · intro h
    simp only [detect_policy_violations, h, if_true]

/-- C6 witness: the two cases at the concrete file name a.yml. -/
theorem two_line_steps_run_detection_witness :
    detect_policy_violations [⟨"a.yml", .ok "steps:\n  - run: echo hi\n"⟩] [] =
      .ok [{ file := "a.yml"
             path := ".github/workflows/" ++ "a.yml"
             violation_type := "bespoke_run_command"
             lines := some [2]
             message := "Contains 1 bespoke run: command(s)" }] ∧
    detect_policy_violations [⟨"a.yml", .ok "steps:\n  - run: echo hi\n"⟩] ["a.yml"] =
      .ok [] :=
  ⟨(two_line_steps_run_detection "a.yml" []).1 (by decide),
   (two_line_steps_run_detection "a.yml" ["a.yml"]).2 (by decide)⟩

/-! Helper lemmas: the missing-file pass. -/

theorem detect_missing_map_file (files : List WFile) (required : List String) :
    (detect_missing_policies files required).map Violation.file =
      required.filter (fun req => !(files.map WFile.name).contains req) := by
  induction required with
  | nil => rfl
  | cons r rs ih =>
    by_cases h : (files.map WFile.name).contains r = true
    · simp only [detect_missing_policies, List.filterMap_cons, h, if_true,
        List.filter_cons, Bool.not_true] at ih ⊢
      simpa using ih
    · rw [Bool.not_eq_true] at h
      simp only [detect_missing_policies, List.filterMap_cons, h, Bool.false_eq_true, if_false,
        List.filter_cons, Bool.not_false, List.map_cons] at ih ⊢
      simpa using ih

theorem detect_missing_type (files : List WFile) (required : List String) :
    ∀ v ∈ detect_missing_policies files required,
      v.violation_type = "missing_required_file" ∧ v.lines = none := by
  intro v hv
  rw [detect_missing_policies, List.mem_filterMap] at hv
  obtain ⟨req, _, hv⟩ := hv
  by_cases h : (files.map WFile.name).contains req = true
  · rw [if_pos h] at hv
    exact Option.noConfusion hv
  · rw [Bool.not_eq_true] at h
    rw [h] at hv
    simp only [Bool.false_eq_true, if_false, Option.some.injEq] at hv
    rw [← hv]
    exact ⟨rfl, rfl⟩

/-- C9: required names absent from the scanned set each yield exactly one
missing-required-file violation naming that file (in required-list order),
and names present yield none: the violated-file list is exactly the filter
of the required list by absence. -/
theorem missing_required_files_exact (files : List WFile) (required : List String) :
    ((detect_missing_policies files required).map Violation.file =
      required.filter (fun req => !(files.map WFile.name).contains req)) ∧
    (∀ v ∈ detect_missing_policies files required,
      v.violation_type = "missing_required_file") := by
  refine ⟨detect_missing_map_file files required, ?_⟩
  intro v hv
  exact (detect_missing_type files required v hv).1

/-- C9 witness: required list policy.yml against the empty file set gives
exactly one violation, which names policy.yml and has the missing-file
kind. -/
theorem missing_required_files_exact_witness :
    (detect_missing_policies [] ["policy.yml"]).map Violation.file = ["policy.yml"] ∧
    Violation.violation_type
      { file := "policy.yml"
        path := ".github/workflows/policy.yml"
        violation_type := "missing_required_file"
        lines := none
        message := "Required governance file policy.yml is missing" } =
      "missing_required_file" := by
  constructor
  · rw [(missing_required_files_exact [] ["policy.yml"]).1]
    decide
  · exact (missing_required_files_exact [] ["policy.yml"]).2 _ (by decide)

/-- C4 counterexample: a single unreadable, non-allowlisted file makes
`detect_policy_violations` abort with the read error (there is no handler
around `read_text`), instead of contributing zero violations and returning
the empty violation list. -/
theorem unreadable_file_aborts_scan_cex :
    detect_policy_violations [⟨"bad.yml", Except.error PyErr.readError⟩] [] =
      Except.error PyErr.readError := by rfl

/-- C4 (amended): an unreadable file is recovered only on the commitment
side — `hash_file_content` catches the read error and hashes empty content —
while `detect_policy_violations` propagates the uncaught `read_text` error,
so a single unreadable non-allowlisted file aborts the whole violation
scan. -/
theorem unreadable_file_handling (allowlist : List String) (f : WFile) (e : PyErr)
    (he : f.text = .error e) (hna : allowlist.contains f.name = false) :
    (∀ files, f ∈ files → ∃ e2, detect_policy_violations files allowlist = .error e2) ∧
    (∀ e3, hash_file_content (.error e3) = sha256hex []) := by
  constructor
  · intro files
    induction files with
    | nil => intro hf; cases hf
    | cons g rest ih =>
      intro hf
      rcases List.mem_cons.mp hf with rfl | hmem
      · refine ⟨e, ?_⟩
        have hna2 : ¬ f.name ∈ allowlist := by simpa using hna
        simp [detect_policy_violations, hna2, he]
      · by_cases hg : allowlist.contains g.name = true
        · have hg2 : g.name ∈ allowlist := by simpa using hg
          obtain ⟨e2, h2⟩ := ih hmem
          exact ⟨e2, by simp [detect_policy_violations, hg2, h2]⟩
        · rw [Bool.not_eq_true] at hg
          have hg2 : ¬ g.name ∈ allowlist := by simpa using hg
          cases hgt : g.text with
          | error eg => exact ⟨eg, by simp [detect_policy_violations, hg2, hgt]⟩
          | ok content =>
            obtain ⟨e2, h2⟩ := ih hmem
            exact ⟨e2, by simp [detect_policy_violations, hg2, hgt, h2]⟩
  · intro e3
    rfl

/-- C4 witness: the concrete unreadable file bad.yml aborts the scan, and
its content hash falls back to the empty-content digest. -/
theorem unreadable_file_handling_witness :
    (∃ e2, detect_policy_violations [⟨"bad.yml", Except.error PyErr.readError⟩] [] =
      Except.error e2) ∧
    hash_file_content (.error PyErr.readError) = sha256hex [] :=
  ⟨(unreadable_file_handling [] ⟨"bad.yml", Except.error PyErr.readError⟩ PyErr.readError
      rfl (by decide)).1 _ (by decide),
   (unreadable_file_handling [] ⟨"bad.yml", Except.error PyErr.readError⟩ PyErr.readError
      rfl (by decide)).2 PyErr.readError⟩

/-! Helper lemmas: the inline-command pass. -/

theorem detect_policy_shape (allowlist : List String) :
    ∀ (files : List WFile) (v : List Violation),
      detect_policy_violations files allowlist = .ok v →
      (v.map Violation.file).Sublist (files.map WFile.name) ∧
      ∀ x ∈ v, x.violation_type = "bespoke_run_command" := by
  intro files
  induction files with
  | nil =>
    intro v h
    rw [detect_policy_violations] at h
    cases Except.ok.inj h
    exact ⟨List.nil_sublist _, by intro x hx; cases hx⟩
  | cons f rest ih =>
    intro v h
    rw [detect_policy_violations] at h
    by_cases hf : allowlist.contains f.name = true
    · rw [if_pos hf] at h
      obtain ⟨hs, ht⟩ := ih v h
      exact ⟨hs.cons _, ht⟩
    · rw [Bool.not_eq_true] at hf
      rw [if_neg (by rw [hf]; decide)] at h
      cases hft : f.text with
      | error e => rw [hft] at h; exact absurd h (by simp)
      | ok content =>
        rw [hft] at h
        cases hd : detect_policy_violations rest allowlist with
        | error e => rw [hd] at h; exact absurd h (by simp)
        | ok tail =>
          rw [hd] at h
          obtain ⟨hs, ht⟩ := ih tail hd
          have hv : v = if (violationLines content).isEmpty = true then tail
              else runCommandViolation f.name (violationLines content) :: tail :=
            (Except.ok.inj h).symm
          by_cases hemp : (violationLines content).isEmpty = true
          · rw [if_pos hemp] at hv
            subst hv
            exact ⟨hs.cons _, ht⟩
          · rw [if_neg hemp] at hv
            subst hv
            refine ⟨?_, ?_⟩
            · simpa [runCommandViolation] using hs.cons₂ f.name
            · intro x hx
              rcases List.mem_cons.mp hx with rfl | hx
              · rfl
              · exact ht x hx

/-- C8: a successful report's violation list is exactly the inline-command
violations followed by the missing-file violations; the inline entries come
in supplied-file order (their file names form a sublist of the supplied
names), the missing entries in required-list order, and each class is
labelled by its kind, so every inline-command violation precedes every
missing-file violation. -/
theorem report_orders_inline_before_missing (files : List WFile)
    (allowlist required_files : List String) (r : Report)
    (h : generate_drift_report files allowlist required_files = .ok r) :
    ∃ v, detect_policy_violations files allowlist = .ok v ∧
      r.violations = v ++ detect_missing_policies files required_files ∧
      (v.map Violation.file).Sublist (files.map WFile.name) ∧
      ((detect_missing_policies files required_files).map Violation.file).Sublist
        required_files ∧
      (∀ x ∈ v, x.violation_type = "bespoke_run_command") ∧
      (∀ x ∈ detect_missing_policies files required_files,
        x.violation_type = "missing_required_file") := by
  rw [generate_drift_report] at h
  cases hs : scan_workflows files with
  | error e => rw [hs] at h; exact absurd h (by simp)
  | ok state =>
    rw [hs] at h
    cases hd : detect_policy_violations files allowlist with
    | error e => rw [hd] at h; exact absurd h (by simp)
    | ok v =>
      rw [hd] at h
      have hr := (Except.ok.inj h).symm
      obtain ⟨hsub, htype⟩ := detect_policy_shape allowlist files v hd
      refine ⟨v, rfl, ?_, hsub, ?_, htype, ?_⟩
      · rw [hr]
      · rw [detect_missing_map_file]
        exact List.filter_sublist _
      · intro x hx
        exact (detect_missing_type files required_files x hx).1

/-- C8 witness: the empty file set with required list policy.yml — the
report's violation list is the (empty) inline list followed by the one
missing-file violation. -/
theorem report_orders_inline_before_missing_witness :
    ∃ v, detect_policy_violations ([] : List WFile) [] = .ok v ∧
      Report.violations
        { state := { workflows := []
                     merkle_root :=
                       "e3b0c44298fc1c149afbf4c8996fb92427ae41e4649b934ca495991b7852b855"
                     workflow_count := 0 }
          violations :=
            [{ file := "policy.yml"
               path := ".github/workflows/policy.yml"
               violation_type := "missing_required_file"
               lines := none
               message := "Required governance file policy.yml is missing" }]
          violation_count := 1
          drift_detected := true
          status := "DRIFT_DETECTED" } =
        v ++ detect_missing_policies [] ["policy.yml"] ∧
      (v.map Violation.file).Sublist (([] : List WFile).map WFile.name) ∧
      ((detect_missing_policies [] ["policy.yml"]).map Violation.file).Sublist
        ["policy.yml"] ∧
      (∀ x ∈ v, x.violation_type = "bespoke_run_command") ∧
      (∀ x ∈ detect_missing_policies [] ["policy.yml"],
        x.violation_type = "missing_required_file") :=
  report_orders_inline_before_missing [] [] ["policy.yml"] _ (by rfl)
